import Mathlib

/-!
Verification development for the law-faculty contact scraper
(`lawquotecollector`).  The Python source is embedded shallowly:

* Python `str` values are Lean `String`s; `str.strip` / `str.lower` are
  modelled over the underlying character list (`pyStrip`, `pyLower`).
* `Contact` mirrors the `storage.Contact` dataclass (`name`,
  `affiliation`, `source_url` are `Optional[str]`, hence `Option String`).
* CSV store files are modelled as the list of parsed data rows
  (`CsvRow`); the `csv` module's quoting round-trip is assumed.
* BeautifulSoup documents are modelled by the rose tree `PNode`;
  a node inside a document is addressed by its child-index path.
* Network effects (`_fetch_html`) are modelled by explicit
  success/failure values supplied as arguments.
-/

/-! ### Python string primitives -/

/-- Whitespace as recognised by `str.strip` / `str.split` (ASCII subset). -/
def isPySpace (c : Char) : Bool :=
  c = ' ' || c = '\t' || c = '\n' || c = '\r' || c = Char.ofNat 11 || c = Char.ofNat 12

/-- Drop leading and trailing whitespace (`str.strip` on the char list). -/
def stripList (l : List Char) : List Char :=
  List.rdropWhile isPySpace (l.dropWhile isPySpace)

/-- Python `s.strip()`. -/
def pyStrip (s : String) : String :=
  ⟨stripList s.data⟩

/-- Python `s.lower()` (ASCII letters, as used by this code base). -/
def pyLower (s : String) : String :=
  ⟨s.data.map Char.toLower⟩

/-- Normalised email key used throughout the code: `email.strip().lower()`. -/
def normEmail (s : String) : String :=
  pyLower (pyStrip s)

/-- Truthiness of Python's `Optional[str]`: `None` and `""` are falsy. -/
def optStrTruthy : Option String → Bool
  | none => false
  | some s => s ≠ ""

/-! ### Data model (`storage.Contact` and CSV rows) -/

/-- The `storage.Contact` dataclass: `name: str | None`, `email: str`,
`affiliation: str | None`, `source_url: str | None`. -/
structure Contact where
  name : Option String
  email : String
  affiliation : Option String
  source_url : Option String
deriving DecidableEq, Repr

/-- Normalised email key of a contact (`c.email.strip().lower()`). -/
def contactKey (c : Contact) : String := normEmail c.email

/-- One data row of the CSV store, fields in `CSV_HEADERS` order.
`csv.DictWriter` writes `None` as the empty string. -/
structure CsvRow where
  name : String
  email : String
  affiliation : String
  source_url : String
deriving DecidableEq, Repr

/-- How `csv.DictWriter.writerow(asdict(c))` serialises a contact. -/
def contactToRow (c : Contact) : CsvRow :=
  ⟨c.name.getD "", c.email, c.affiliation.getD "", c.source_url.getD ""⟩

/-! ### `storage.dedupe_contacts` -/

/-- Loop body of `dedupe_contacts` (and of the identical local pass in
`scraper.scrape_directory`): `seen` is the set of already-seen keys. -/
def dedupeSeenLoop (seen : List String) : List Contact → List Contact
  | [] => []
  | c :: rest =>
      let key := contactKey c
      if key ∈ seen then dedupeSeenLoop seen rest
      else c :: dedupeSeenLoop (key :: seen) rest

/-- The `storage.dedupe_contacts` function. -/
def dedupe_contacts (contacts : List Contact) : List Contact :=
  dedupeSeenLoop [] contacts

/-- Specification-side reference (spec 4.6, refinement target): keep the
first occurrence of each normalised email, preserving order.  Written from
the spec's words, to be compared with `dedupe_contacts`. -/
def firstOccurrenceByEmail : List Contact → List Contact
  | [] => []
  | c :: rest =>
      c :: firstOccurrenceByEmail (rest.filter fun d => contactKey d ≠ contactKey c)
termination_by l => l.length
decreasing_by
  simp only [List.length_cons]
  exact Nat.lt_succ_of_le (List.length_filter_le _ _)

/-! ### `storage.save_contacts_csv` (append mode) -/

/-- Writer loop of `save_contacts_csv`: skips contacts whose normalised
email is already in `existing`, returns the rows written and their count. -/
def saveContactsLoop (existing : List String) : List Contact → List CsvRow × Nat
  | [] => ([], 0)
  | c :: rest =>
      let emKey := normEmail c.email
      if emKey ∈ existing then saveContactsLoop existing rest
      else
        let r := saveContactsLoop (emKey :: existing) rest
        (contactToRow c :: r.1, r.2 + 1)

/-- The `storage.save_contacts_csv` function.  `store = none` models a
non-existent file (then mode is `"w"` even with `append = true`); otherwise
`store` is the list of data rows already on disk.  Returns the resulting
file's data rows and the count of rows written. -/
def save_contacts_csv (store : Option (List CsvRow)) (contacts : List Contact)
    (append : Bool) : List CsvRow × Nat :=
  let modeAppend := append && store.isSome
  let base := if modeAppend then store.getD [] else []
  let existing :=
    if modeAppend then (base.map fun r => normEmail r.email).filter (fun e => e ≠ "")
    else []
  let w := saveContactsLoop existing contacts
  (base ++ w.1, w.2)

/-! ### `storage.update_names_in_csv` -/

/-- First-occurrence-wins construction of the `email_to_name` dict: a key
is added only when the contact's email and name are truthy, the normalised
key is nonempty, and the key is not present yet. -/
def buildEmailToName : List (String × String) → List Contact → List (String × String)
  | acc, [] => acc
  | acc, c :: rest =>
      if c.email ≠ "" ∧ optStrTruthy c.name then
        let key := normEmail c.email
        if key ≠ "" ∧ (acc.lookup key).isNone then
          buildEmailToName (acc ++ [(key, pyStrip (c.name.getD ""))]) rest
        else buildEmailToName acc rest
      else buildEmailToName acc rest

/-- The `email_to_name` map built by `update_names_in_csv`. -/
def emailToName (contacts : List Contact) : List (String × String) :=
  buildEmailToName [] contacts

/-- Per-row body of the `update_names_in_csv` read loop: returns the
(possibly renamed) row and whether `updated` was incremented. -/
def updateRow (m : List (String × String)) (row : CsvRow) : CsvRow × Bool :=
  let em := normEmail row.email
  let currentName := pyStrip row.name
  if em ≠ "" ∧ (m.lookup em).isSome then
    let newName := (m.lookup em).getD ""
    if currentName ≠ newName then ({ row with name := newName }, true)
    else (row, false)
  else (row, false)

/-- Row loop of `update_names_in_csv`. -/
def updateRowsLoop (m : List (String × String)) : List CsvRow → List CsvRow × Nat
  | [] => ([], 0)
  | row :: rest =>
      let u := updateRow m row
      let r := updateRowsLoop m rest
      (u.1 :: r.1, (if u.2 then 1 else 0) + r.2)

/-- The `storage.update_names_in_csv` function on an existing store:
rewrites the rows and returns the updated count. -/
def update_names_in_csv (rows : List CsvRow) (contacts : List Contact) :
    List CsvRow × Nat :=
  updateRowsLoop (emailToName contacts) rows

/-! ### `validators.is_valid_email` -/

/-- Characters allowed by the local-part class of `EMAIL_REGEX`
(alphanumerics and the punctuation listed in the character class). -/
def isLocalChar (c : Char) : Bool :=
  c.isAlphanum || c = '.' || c = '!' || c = '#' || c = '$' || c = '%' || c = '&' ||
    c = Char.ofNat 39 || c = '*' || c = '+' || c = '/' || c = '=' || c = '?' ||
    c = '^' || c = '_' || c = Char.ofNat 96 || c = Char.ofNat 123 || c = '|' ||
    c = Char.ofNat 125 || c = '~' || c = '-'

/-- Characters allowed in a non-final domain label (`[A-Za-z0-9-]`). -/
def isDomainChar (c : Char) : Bool :=
  c.isAlphanum || c = '-'

/-- Match of `([A-Za-z0-9-]+\.)+[A-Za-z]{2,}$` against the domain part:
the dot-split labels are one or more nonempty `isDomainChar` groups
followed by a final all-alphabetic label of length at least two. -/
def domainMatch (d : List Char) : Bool :=
  match (d.splitOn '.').reverse with
  | [] => false
  | finl :: initRev =>
      !initRev.isEmpty && initRev.all (fun l => !l.isEmpty && l.all isDomainChar) &&
        finl.all Char.isAlpha && decide (2 ≤ finl.length)

/-- Full-string match of `EMAIL_REGEX` (`^local+@domain$`): since neither
character class admits `'@'`, the regex matches exactly when the string has
one `'@'`, a nonempty all-`isLocalChar` part before it and a matching
domain after it. -/
def emailRegexMatch (s : String) : Bool :=
  match s.data.splitOn '@' with
  | [lp, dom] => !lp.isEmpty && lp.all isLocalChar && domainMatch dom
  | _ => false

/-- The fixed obfuscation markers rejected by `is_valid_email`. -/
def obfuscationMarkers : List String :=
  [" [at] ", "(at)", " [dot] ", "(dot)"]

/-- Substring test (Python's `token in s`). -/
def containsSub (needle : List Char) : List Char → Bool
  | [] => needle.isEmpty
  | c :: rest => needle.isPrefixOf (c :: rest) || containsSub needle rest

/-- Test for `any(token in candidate.lower() for token in [...])`. -/
def hasObfuscationMarker (candidate : String) : Bool :=
  obfuscationMarkers.any fun t => containsSub t.data (pyLower candidate).data

/-- The `validators.is_valid_email` function. -/
def is_valid_email (email : String) : Bool :=
  if email = "" then false
  else if hasObfuscationMarker (pyStrip email) then false
  else emailRegexMatch (pyStrip email)

/-- Specification-side grammar (spec 4.1, refinement target): one or more
allowed local-part characters, `'@'`, one or more dot-separated nonempty
label groups, and a final alphabetic label of length at least 2.  Written
from the spec's words, to be compared with `emailRegexMatch`. -/
def SpecEmailShape (t : List Char) : Prop :=
  ∃ lp parts finl,
    t = lp ++ '@' :: List.intercalate ['.'] (parts ++ [finl]) ∧
    lp ≠ [] ∧ (∀ c ∈ lp, isLocalChar c = true) ∧
    parts ≠ [] ∧ (∀ p ∈ parts, p ≠ [] ∧ ∀ c ∈ p, isDomainChar c = true) ∧
    (∀ c ∈ finl, c.isAlpha = true) ∧ 2 ≤ finl.length

/-! ### `scraper._robots_allows` -/

/-- Outcome of `RobotFileParser.set_url(...); rp.read()`: either the
retrieval raises (`failure`) or it yields a parsed policy whose
`can_fetch(useragent, url)` answers are the given function. -/
inductive RobotsFetch where
  | failure
  | success (canFetch : String → String → Bool)

/-- The `scraper._robots_allows` function: on a robots retrieval failure
it returns `True` for the requested URL; on success it returns the
policy's `can_fetch(user_agent, url)`. -/
def robots_allows (r : RobotsFetch) (userAgent url : String) : Bool :=
  match r with
  | .failure => true
  | .success canFetch => canFetch userAgent url

/-! ### `columbia_law.parse_contacts` pagination walker -/

/-- The `MAX_PAGES` constant of `columbia_law`. -/
def MAX_PAGES : Nat := 40

/-- The inner merge loop of `columbia_law.parse_contacts`: fold one page's
contacts into `(seen, contacts)`, counting `new_added`. -/
def columbiaMerge (seen : List String) (acc : List Contact) :
    List Contact → List String × List Contact × Nat
  | [] => (seen, acc, 0)
  | c :: rest =>
      let key := contactKey c
      if key ∈ seen then columbiaMerge seen acc rest
      else
        let r := columbiaMerge (key :: seen) (acc ++ [c]) rest
        (r.1, r.2.1, r.2.2 + 1)

/-- The `while` loop of `columbia_law.parse_contacts`.  `fetchPage n`
models `_fetch_html` of the page-`n` URL followed by
`_contacts_from_page`; `none` models a fetch exception (the `break`).
The trace records the page numbers fetched, in order. -/
def columbiaWalk (fetchPage : Nat → Option (List Contact)) :
    Nat → Nat → List String → List Contact → List Nat → List Contact × List Nat
  | 0, _, _, acc, trace => (acc, trace)
  | budget + 1, current, seen, acc, trace =>
      match fetchPage current with
      | none => (acc, trace ++ [current])
      | some pageContacts =>
          let r := columbiaMerge seen acc pageContacts
          if r.2.2 = 0 then (r.2.1, trace ++ [current])
          else columbiaWalk fetchPage budget (current + 1) r.1 r.2.1 (trace ++ [current])

/-- The `columbia_law.parse_contacts` function, starting from the contacts
of the already-fetched seed page and the page index parsed from the seed
URL query (`current` runs from `start_page + 1` while
`current - start_page <= MAX_PAGES`, i.e. at most `MAX_PAGES` iterations). -/
def parse_contacts_columbia (initial : List Contact) (startPage : Nat)
    (fetchPage : Nat → Option (List Contact)) : List Contact × List Nat :=
  columbiaWalk fetchPage MAX_PAGES (startPage + 1) (initial.map contactKey) initial []

/-! ### Parsed-document model (BeautifulSoup trees) -/

/-- A parsed document node: an element (`tag`) with a tag name, `class`
list, other attributes and children, or a bare text node
(`NavigableString`).  The root `PNode` plays the role of the
`BeautifulSoup` document object. -/
inductive PNode where
  | textNode (s : String)
  | tag (nm : String) (classes : List String) (attrs : List (String × String)) (children : List PNode)

/-- Tag name of an element (`Tag.name`), `none` for text nodes. -/
def PNode.tagName : PNode → Option String
  | .tag nm _ _ _ => some nm
  | .textNode _ => none

/-- Whether the node is a `Tag` (not a `NavigableString`). -/
def PNode.isTag : PNode → Bool
  | .tag _ _ _ _ => true
  | .textNode _ => false

/-- Attribute access `node.get(key)`. -/
def PNode.attr : PNode → String → Option String
  | .tag _ _ attrs _, key => attrs.lookup key
  | .textNode _, _ => none

/-- The `class` attribute as a token list (`node.get("class", [])`). -/
def PNode.classList : PNode → List String
  | .tag _ cls _ _ => cls
  | .textNode _ => []

mutual
/-- Stripped nonempty text fragments of a node's descendants, in document
order (the pieces joined by `get_text(" ", strip=True)`). -/
def pyGetTextParts : PNode → List String
  | .textNode s => if pyStrip s ≠ "" then [pyStrip s] else []
  | .tag _ _ _ cs => pyGetTextPartsList cs
/-- List version of `pyGetTextParts`. -/
def pyGetTextPartsList : List PNode → List String
  | [] => []
  | n :: ns => pyGetTextParts n ++ pyGetTextPartsList ns
end

/-- BeautifulSoup `node.get_text(" ", strip=True)`. -/
def pyGetText (n : PNode) : String :=
  String.intercalate " " (pyGetTextParts n)

/-- Word count Python-style: `len(s.split())`, counting maximal runs of
non-whitespace characters.  The Boolean argument tracks whether the scan
is inside a word. -/
def countWordsAux : List Char → Bool → Nat
  | [], _ => 0
  | c :: rest, inWord =>
      if isPySpace c then countWordsAux rest false
      else (if inWord then 0 else 1) + countWordsAux rest true

/-- Python `len(s.split())`. -/
def wordCount (s : String) : Nat :=
  countWordsAux s.data false

/-- Node at a child-index path from `root` (`none` if the path dangles). -/
def nodeAt : PNode → List Nat → Option PNode
  | n, [] => some n
  | .tag _ _ _ cs, i :: p =>
      match cs[i]? with
      | some c => nodeAt c p
      | none => none
  | .textNode _, _ :: _ => none

mutual
/-- Paths of all strict descendants of a node, in document (pre-)order. -/
def subPaths : PNode → List (List Nat)
  | .textNode _ => []
  | .tag _ _ _ cs => subPathsAux cs 0
/-- Auxiliary for `subPaths`: children starting at index `i`. -/
def subPathsAux : List PNode → Nat → List (List Nat)
  | [], _ => []
  | c :: cs, i => [i] :: ((subPaths c).map (fun p => i :: p) ++ subPathsAux cs (i + 1))
end

mutual
/-- All strict descendants of a node, in document (pre-)order
(the iteration order of `find_all` / `select`). -/
def descendants : PNode → List PNode
  | .textNode _ => []
  | .tag _ _ _ cs => descendantsList cs
/-- List version of `descendants`. -/
def descendantsList : List PNode → List PNode
  | [] => []
  | c :: cs => c :: descendants c ++ descendantsList cs
end

/-- Paths of the ancestors of the node at `p`, nearest (parent) first,
ending with `[]` (the document root). -/
def ancestorPaths (p : List Nat) : List (List Nat) :=
  (List.range p.length).reverse.map fun k => p.take k

/-- Whether the node's tag name is in `tags`. -/
def tagNameIn (tags : List String) : PNode → Bool
  | .tag nm _ _ _ => tags.contains nm
  | .textNode _ => false

/-- BeautifulSoup `node.find_all(tags, limit=lim)`. -/
def findAllTags (n : PNode) (tags : List String) (lim : Nat) : List PNode :=
  ((descendants n).filter (tagNameIn tags)).take lim

/-! ### `sites/generic.py` -/

/-- The `generic._extract_email_from_mailto` function: requires a
(case-insensitive) `mailto:` scheme, takes what follows the first `':'`
of the original href, truncates at the first `'?'`, strips. -/
def extract_email_from_mailto (href : String) : Option String :=
  if "mailto:".data.isPrefixOf (pyLower href).data then
    let address := ((href.data.dropWhile fun c => c ≠ ':').drop 1).takeWhile fun c => c ≠ '?'
    let address := stripList address
    if address = [] then none else some ⟨address⟩
  else none

/-- Heading-like tags used by `generic._nearest_name`. -/
def genericHeadingTags : List String :=
  ["h1", "h2", "h3", "h4", "h5", "h6", "strong"]

/-- Class tokens that mark a sibling as a name carrier in
`generic._nearest_name`. -/
def nameClassTokens : List String :=
  ["name", "person", "faculty", "profile"]

/-- The sibling loop of `generic._nearest_name`: iterate the parent's
direct children; a heading-like child with short, `'@'`-free text, or a
child whose `class` string contains a name-ish token, yields the name. -/
def genericSiblingScan : List PNode → Option String
  | [] => none
  | sib :: rest =>
      if sib.isTag then
        let text := pyGetText sib
        if text = "" then genericSiblingScan rest
        else if tagNameIn genericHeadingTags sib ∧ ¬('@' ∈ text.data) ∧ wordCount text ≤ 8 then
          some text
        else
          let cls := pyLower (String.intercalate " " sib.classList)
          if (nameClassTokens.any fun tok => containsSub tok.data cls.data) ∧
              ¬('@' ∈ text.data) ∧ 1 ≤ wordCount text ∧ wordCount text ≤ 8 then
            some text
          else genericSiblingScan rest
      else genericSiblingScan rest

/-- First of (at most 3) heading-like descendants with usable text, for
the ancestor loop of `generic._nearest_name`. -/
def genericHeadingPick : List PNode → Option String
  | [] => none
  | n :: rest =>
      let text := pyGetText n
      if text ≠ "" ∧ ¬('@' ∈ text.data) ∧ wordCount text ≤ 8 then some text
      else genericHeadingPick rest

/-- The ancestor loop of `generic._nearest_name`: climb up to 3 ancestors,
checking the first 3 heading-like descendants of each. -/
def genericAncestorScan (root : PNode) : List (List Nat) → Option String
  | [] => none
  | q :: rest =>
      match nodeAt root q with
      | some node =>
          match genericHeadingPick (findAllTags node genericHeadingTags 3) with
          | some t => some t
          | none => genericAncestorScan root rest
      | none => genericAncestorScan root rest

/-- The `generic._nearest_name` heuristic for the anchor at path `p`. -/
def nearest_name_generic (root : PNode) (p : List Nat) : Option String :=
  let anchor := (nodeAt root p).getD (PNode.textNode "")
  let anchorText := pyStrip (pyGetText anchor)
  if anchorText ≠ "" ∧ ¬('@' ∈ anchorText.data) ∧ wordCount anchorText ≤ 6 then
    some anchorText
  else
    let siblingResult :=
      match p.getLast? with
      | none => none
      | some _ =>
          match nodeAt root (p.dropLast) with
          | some (PNode.tag _ _ _ children) => genericSiblingScan children
          | _ => none
    match siblingResult with
    | some t => some t
    | none => genericAncestorScan root ((ancestorPaths p).take 3)

/-- Paths of all anchors with an `href` attribute (`soup.find_all("a",
href=True)`), in document order. -/
def anchorsWithHref (root : PNode) : List (List Nat) :=
  (subPaths root).filter fun p =>
    match nodeAt root p with
    | some (PNode.tag nm _ attrs _) => nm == "a" && (attrs.lookup "href").isSome
    | _ => false

/-- The `generic.parse_contacts` function. -/
def parse_contacts_generic (soup : PNode) (pageUrl : String)
    (affiliation : Option String) (sourceUrl : Option String) : List Contact :=
  let src := if optStrTruthy sourceUrl then sourceUrl.getD "" else pageUrl
  (anchorsWithHref soup).filterMap fun p =>
    let href := ((nodeAt soup p).getD (PNode.textNode "")).attr "href" |>.getD ""
    match extract_email_from_mailto href with
    | none => none
    | some email =>
        if is_valid_email email then
          some ⟨nearest_name_generic soup p, email, affiliation, some src⟩
        else none

/-! ### `sites/duke_law.py` -/

/-- Hex digit value for percent-decoding. -/
def hexDigitVal (c : Char) : Nat :=
  if c.isDigit then c.toNat - 48
  else if 97 ≤ c.toNat ∧ c.toNat ≤ 102 then c.toNat - 87
  else c.toNat - 55

/-- Whether `c` is an ASCII hex digit. -/
def isHexDigitChar (c : Char) : Bool :=
  c.isDigit || (97 ≤ c.toNat && c.toNat ≤ 102) || (65 ≤ c.toNat && c.toNat ≤ 70)

/-- Python `urllib.parse.unquote`, modelled for ASCII `%XX` escapes
(the only ones this code base encounters). -/
def pyUnquote : List Char → List Char
  | [] => []
  | '%' :: h1 :: h2 :: rest =>
      if isHexDigitChar h1 ∧ isHexDigitChar h2 ∧ hexDigitVal h1 * 16 + hexDigitVal h2 < 128 then
        Char.ofNat (hexDigitVal h1 * 16 + hexDigitVal h2) :: pyUnquote rest
      else '%' :: pyUnquote (h1 :: h2 :: rest)
  | c :: rest => c :: pyUnquote rest

/-- The `duke_law._extract_email` function: strips the href, requires a
case-insensitive `mailto:` scheme, takes what follows the first `':'`,
truncates at the first `'?'`, strips and percent-decodes. -/
def extract_email_duke (href : String) : Option String :=
  if href = "" then none
  else
    let lower := pyStrip href
    if "mailto:".data.isPrefixOf (pyLower lower).data then
      let addr := ((lower.data.dropWhile fun c => c ≠ ':').drop 1).takeWhile fun c => c ≠ '?'
      let addr := pyUnquote (stripList addr)
      if addr = [] then none else some ⟨addr⟩
    else none

/-- The button labels `duke_law._nearest_name` refuses as names. -/
def button_labels : List String :=
  ["email", "e-mail", "contact", "send email"]

/-- Whether a node is an `h3` with class `directory-name`. -/
def isH3DirectoryName : PNode → Bool
  | .tag nm cls _ _ => nm == "h3" && cls.contains "directory-name"
  | .textNode _ => false

/-- First `h3.directory-name` descendant (`container.select_one`). -/
def selectH3DirectoryName (n : PNode) : Option PNode :=
  ((descendants n).filter isH3DirectoryName).head?

/-- Generic-heading pick of `duke_law._nearest_name`'s container loop:
first of the (at most 2) `h1`-`h4` descendants whose text is nonempty,
`'@'`-free and not a button label. -/
def dukeHeadingPick : List PNode → Option String
  | [] => none
  | n :: rest =>
      let t := pyStrip (pyGetText n)
      if t ≠ "" ∧ ¬('@' ∈ t.data) ∧ ¬(pyLower t ∈ button_labels) then some t
      else dukeHeadingPick rest

/-- The container (ancestor) loop of `duke_law._nearest_name`: prefer an
`h3.directory-name` heading, then fall back to generic `h1`-`h4`
headings, climbing up to 6 ancestors. -/
def dukeContainerScan (root : PNode) : List (List Nat) → Option String
  | [] => none
  | q :: rest =>
      match nodeAt root q with
      | some container =>
          let fromDirName :=
            match selectH3DirectoryName container with
            | some heading =>
                let htxt := pyStrip (pyGetText heading)
                if htxt ≠ "" ∧ ¬('@' ∈ htxt.data) then some htxt else none
            | none => none
          match fromDirName with
          | some t => some t
          | none =>
              match dukeHeadingPick (findAllTags container ["h1", "h2", "h3", "h4"] 2) with
              | some t => some t
              | none => dukeContainerScan root rest
      | none => dukeContainerScan root rest

/-- The final sibling fallback of `duke_law._nearest_name`: headings or
`strong` descendants of the anchor's parent (at most 4). -/
def dukeSiblingFallback (root : PNode) (p : List Nat) : Option String :=
  match p.getLast? with
  | none => none
  | some _ =>
      match nodeAt root p.dropLast with
      | some parent =>
          if parent.isTag then
            dukeHeadingPick (findAllTags parent ["h1", "h2", "h3", "h4", "strong"] 4)
          else none
      | none => none

/-- The `duke_law._nearest_name` heuristic for the anchor at `p`. -/
def nearest_name_duke (root : PNode) (p : List Nat) : Option String :=
  let anchor := (nodeAt root p).getD (PNode.textNode "")
  let rawText := pyStrip (pyGetText anchor)
  let href := pyLower (pyStrip (anchor.attr "href" |>.getD ""))
  let isMailtoAnchor := "mailto:".data.isPrefixOf href.data
  if rawText ≠ "" ∧ ¬(isMailtoAnchor = true) ∧ ¬(pyLower rawText ∈ button_labels) ∧
      ¬('@' ∈ rawText.data) ∧ 1 ≤ wordCount rawText ∧ wordCount rawText ≤ 8 then
    some rawText
  else
    match dukeContainerScan root ((ancestorPaths p).take 6) with
    | some t => some t
    | none => dukeSiblingFallback root p

/-- Paths matched by `soup.select("h3.directory-name a")`: anchors having
an `h3.directory-name` ancestor, in document order. -/
def selectDirNameAnchors (root : PNode) : List (List Nat) :=
  (subPaths root).filter fun p =>
    (match nodeAt root p with
      | some (PNode.tag nm _ _ _) => nm == "a"
      | _ => false) &&
    (ancestorPaths p).any fun q =>
      match nodeAt root q with
      | some n => isH3DirectoryName n
      | none => false

/-- Paths matched by `soup.select("h3.directory-name")`. -/
def selectDirNameHeadings (root : PNode) : List (List Nat) :=
  (subPaths root).filter fun p =>
    match nodeAt root p with
    | some n => isH3DirectoryName n
    | none => false

/-- Paths matched by `soup.select("a[href*='/fac/'], a[href*='/faculty/']")`. -/
def selectProfileAnchors (root : PNode) : List (List Nat) :=
  (subPaths root).filter fun p =>
    match nodeAt root p with
    | some (PNode.tag nm _ attrs _) =>
        nm == "a" &&
          (match attrs.lookup "href" with
            | some h => containsSub "/fac/".data h.data || containsSub "/faculty/".data h.data
            | none => false)
    | _ => false

/-- The `f"{txt.lower()}::{a.get('href','')}"` anchor-dedupe key. -/
def dukeAnchorKey (root : PNode) (p : List Nat) : String :=
  let n := (nodeAt root p).getD (PNode.textNode "")
  pyLower (pyStrip (pyGetText n)) ++ "::" ++ (n.attr "href" |>.getD "")

/-- Order-preserving dedupe of the gathered anchor paths by their key. -/
def dedupeAnchorPaths (root : PNode) : List String → List (List Nat) → List (List Nat)
  | _, [] => []
  | seen, p :: rest =>
      let key := dukeAnchorKey root p
      if key ∈ seen then dedupeAnchorPaths root seen rest
      else p :: dedupeAnchorPaths root (key :: seen) rest

/-- Whether a node is an anchor whose `href` starts with `mailto:`
(the CSS selector `a[href^="mailto:"]`, case-sensitive). -/
def hasMailtoHref : PNode → Bool
  | .tag nm _ attrs _ =>
      nm == "a" &&
        (match attrs.lookup "href" with
          | some h => "mailto:".data.isPrefixOf h.data
          | none => false)
  | .textNode _ => false

/-- First `a[href^="mailto:"]` descendant (`container.select_one`). -/
def selectMailto (n : PNode) : Option PNode :=
  ((descendants n).filter hasMailtoHref).head?

/-- Upward mailto search of `duke_law._contacts_from_soup`: starting at
the anchor itself and climbing at most 6 containers, extract the email of
the first mailto link found (possibly `""` when extraction fails). -/
def dukeEmailUpward (root : PNode) : List (List Nat) → Option String
  | [] => none
  | q :: rest =>
      match nodeAt root q with
      | some container =>
          match selectMailto container with
          | some m => some ((extract_email_duke (m.attr "href" |>.getD "")).getD "")
          | none => dukeEmailUpward root rest
      | none => dukeEmailUpward root rest

/-- Following siblings (including text nodes) of the node at `q`. -/
def nextSiblings (root : PNode) (q : List Nat) : List PNode :=
  match q.getLast? with
  | none => []
  | some i =>
      match nodeAt root q.dropLast with
      | some (PNode.tag _ _ _ cs) => cs.drop (i + 1)
      | _ => []

/-- Sibling-walk mailto search: for up to 8 following siblings, the first
element sibling containing a mailto link yields its extracted email. -/
def dukeSibScan : List PNode → Option String
  | [] => none
  | sib :: rest =>
      if sib.isTag then
        match selectMailto sib with
        | some m => some ((extract_email_duke (m.attr "href" |>.getD "")).getD "")
        | none => dukeSibScan rest
      else dukeSibScan rest

/-- The sibling email search of `duke_law._contacts_from_soup`: walk the
siblings after `a.find_parent("h3") or a.parent`. -/
def dukeEmailSiblings (root : PNode) (p : List Nat) : Option String :=
  let headingPath :=
    match (ancestorPaths p).find? (fun q =>
      match nodeAt root q with
      | some (PNode.tag nm _ _ _) => nm == "h3"
      | _ => false) with
    | some q => q
    | none => p.dropLast
  dukeSibScan ((nextSiblings root headingPath).take 8)

/-- The per-anchor loop of `duke_law._contacts_from_soup` (first pass):
name from the anchor text (falling back to `_nearest_name`), email from
the upward then sibling mailto searches, validation, dedupe by email key
or `name::` key.  Returns the final `seen` set and the contacts. -/
def dukeFirstPass (root : PNode) (affiliation : Option String) (pageUrl : String) :
    List String → List (List Nat) → List String × List Contact
  | seen, [] => (seen, [])
  | seen, p :: rest =>
      let nameText := pyStrip (pyGetText ((nodeAt root p).getD (PNode.textNode "")))
      let name := if nameText = "" then (nearest_name_duke root p).getD "" else nameText
      let email0 := (dukeEmailUpward root ((p :: ancestorPaths p).take 6)).getD ""
      let email1 := if email0 = "" then (dukeEmailSiblings root p).getD "" else email0
      let email := if email1 ≠ "" ∧ ¬(is_valid_email email1 = true) then "" else email1
      let dkey := if email ≠ "" then normEmail email else "name::" ++ pyLower (pyStrip name)
      if dkey = "" ∨ dkey ∈ seen then dukeFirstPass root affiliation pageUrl seen rest
      else
        let r := dukeFirstPass root affiliation pageUrl (dkey :: seen) rest
        (r.1, ⟨if name = "" then none else some name, email, affiliation, some pageUrl⟩ :: r.2)

/-- The closing mailto sweep of `duke_law._contacts_from_soup`: any
`mailto:` anchor not already represented contributes a contact. -/
def dukeSecondPass (root : PNode) (affiliation : Option String) (pageUrl : String) :
    List String → List (List Nat) → List Contact
  | _, [] => []
  | seen, p :: rest =>
      let n := (nodeAt root p).getD (PNode.textNode "")
      let email := (extract_email_duke (n.attr "href" |>.getD "")).getD ""
      if email = "" ∨ ¬(is_valid_email email = true) then
        dukeSecondPass root affiliation pageUrl seen rest
      else
        let key := normEmail email
        if key ∈ seen then dukeSecondPass root affiliation pageUrl seen rest
        else
          let name := (nearest_name_duke root p).getD ""
          ⟨if name = "" then none else some name, email, affiliation, some pageUrl⟩ ::
            dukeSecondPass root affiliation pageUrl (key :: seen) rest

/-- Paths of all `a[href^="mailto:"]` anchors (`soup.select`). -/
def selectMailtoPaths (root : PNode) : List (List Nat) :=
  (subPaths root).filter fun p =>
    match nodeAt root p with
    | some n => hasMailtoHref n
    | none => false

/-- The `duke_law._contacts_from_soup` function. -/
def contacts_from_soup_duke (soup : PNode) (pageUrl : String)
    (affiliation : Option String) : List Contact :=
  let profileAnchors :=
    selectDirNameAnchors soup ++ selectDirNameHeadings soup ++ selectProfileAnchors soup
  let uniqueAnchors := dedupeAnchorPaths soup [] profileAnchors
  let fp := dukeFirstPass soup affiliation pageUrl [] uniqueAnchors
  fp.2 ++ dukeSecondPass soup affiliation pageUrl fp.1 (selectMailtoPaths soup)

/-- The `duke_law.parse_contacts` function (single page; its
`source_url` parameter is unused by the source). -/
def parse_contacts_duke (soup : PNode) (pageUrl : String)
    (affiliation : Option String) (_sourceUrl : Option String) : List Contact :=
  contacts_from_soup_duke soup pageUrl affiliation

/-- The local dedupe pass at the end of `scraper.scrape_directory`
(the same loop as `dedupe_contacts`, repeated in the scraper): the
contacts returned by the selected site parser, unique by normalised
email, first occurrence kept. -/
def scrape_directory_result (parserContacts : List Contact) : List Contact :=
  dedupeSeenLoop [] parserContacts

/-! ### Concrete documents and page sequences used by the scenarios -/

/-- A document with one mailto anchor labelled `"Contact"` and a sibling
heading `"Jane Roe"` (the spec's generic-parser scenario). -/
def contactLabelDoc : PNode :=
  .tag "div" [] [] [
    .tag "h2" [] [] [.textNode "Jane Roe"],
    .tag "a" [] [("href", "mailto:jane@x.edu")] [.textNode "Contact"]]

/-- A page with two anchors pointing at the same address but different
visible text (the spec's duplicate-anchor scenario). -/
def dupAnchorsDoc : PNode :=
  .tag "div" [] [] [
    .tag "a" [] [("href", "mailto:dup@x.edu")] [.textNode "Ann One"],
    .tag "a" [] [("href", "mailto:dup@x.edu")] [.textNode "Bob Two"]]

/-- A Duke-style listing whose name anchor has no nearby mailto link. -/
def dukeNameOnlyDoc : PNode :=
  .tag "div" [] [] [
    .tag "h3" ["directory-name"] [] [
      .tag "a" [] [("href", "/fac/jane-roe")] [.textNode "Jane Roe"]]]

/-- A fake page sequence for the pagination scenario: pages 1 and 2 each
bring a new contact, page 3 repeats them, page 4 would bring another. -/
def colStallPages : Nat → Option (List Contact) := fun n =>
  if n = 1 then some [⟨some "A", "a@x.edu", none, none⟩]
  else if n = 2 then some [⟨some "B", "b@x.edu", none, none⟩]
  else if n = 3 then
    some [⟨some "A", "a@x.edu", none, none⟩, ⟨some "B", "b@x.edu", none, none⟩]
  else some [⟨some "C", "c@x.edu", none, none⟩]


/-! ## Lemmas -/
/-! ### String lemmas -/

theorem stripList_idem (l : List Char) : stripList (stripList l) = stripList l := by
  unfold stripList
  have hd : List.dropWhile isPySpace (List.rdropWhile isPySpace (l.dropWhile isPySpace)) =
      List.rdropWhile isPySpace (l.dropWhile isPySpace) := by
    rcases hB : List.rdropWhile isPySpace (l.dropWhile isPySpace) with _ | ⟨b, B'⟩
    · simp
    · have hpre : List.rdropWhile isPySpace (l.dropWhile isPySpace) <+:
          l.dropWhile isPySpace := List.rdropWhile_prefix _ _
      rw [hB] at hpre
      have hne : l.dropWhile isPySpace ≠ [] := by
        intro h
        rw [h] at hpre
        exact absurd (List.eq_nil_of_prefix_nil hpre) (by simp)
      have hb : b = (l.dropWhile isPySpace).head hne := by
        have := hpre.head (by simp)
        simpa using this
      have hfalse : isPySpace b = false := by
        rw [hb]
        exact List.head_dropWhile_not isPySpace l hne
      simp [List.dropWhile_cons, hfalse]
  rw [hd, List.rdropWhile_idempotent]

theorem pyStrip_idem (s : String) : pyStrip (pyStrip s) = pyStrip s := by
  simp [pyStrip, stripList_idem]

theorem rdropWhile_append_rtake (p : Char → Bool) (l : List Char) :
    List.rdropWhile p l ++ List.rtakeWhile p l = l := by
  rw [List.rdropWhile, List.rtakeWhile, ← List.reverse_append,
    List.takeWhile_append_dropWhile, List.reverse_reverse]

theorem mem_stripList_of_not_space {c : Char} {l : List Char}
    (hc : c ∈ l) (h : isPySpace c = false) : c ∈ stripList l := by
  unfold stripList
  have h1 : c ∈ l.dropWhile isPySpace := by
    have := (List.takeWhile_append_dropWhile isPySpace l) ▸ hc
    rcases List.mem_append.1 this with h2 | h2
    · exact absurd (List.mem_takeWhile_imp h2) (by simp [h])
    · exact h2
  have hsplit : List.rdropWhile isPySpace (l.dropWhile isPySpace) ++
      List.rtakeWhile isPySpace (l.dropWhile isPySpace) = l.dropWhile isPySpace :=
    rdropWhile_append_rtake _ _
  have := hsplit ▸ h1
  rcases List.mem_append.1 this with h2 | h2
  · exact h2
  · exact absurd (List.mem_rtakeWhile_imp h2) (by simp [h])

/-! ### Lemmas about `dedupe_contacts` -/

theorem dedupeSeenLoop_idem (xs : List Contact) : ∀ seen,
    dedupeSeenLoop seen (dedupeSeenLoop seen xs) = dedupeSeenLoop seen xs := by
  induction xs with
  | nil => intro seen; rfl
  | cons c rest ih =>
      intro seen
      by_cases h : contactKey c ∈ seen
      · simp only [dedupeSeenLoop, if_pos h]
        exact ih seen
      · simp only [dedupeSeenLoop, if_neg h]
        rw [ih (contactKey c :: seen)]

theorem firstOccurrenceByEmail_nil : firstOccurrenceByEmail [] = [] := by
  simp [firstOccurrenceByEmail]

theorem firstOccurrenceByEmail_cons (c : Contact) (l : List Contact) :
    firstOccurrenceByEmail (c :: l) =
      c :: firstOccurrenceByEmail (l.filter fun d => contactKey d ≠ contactKey c) := by
  simp [firstOccurrenceByEmail]

theorem dedupeSeenLoop_eq_firstOcc (xs : List Contact) : ∀ seen,
    dedupeSeenLoop seen xs =
      firstOccurrenceByEmail (xs.filter fun c => !decide (contactKey c ∈ seen)) := by
  induction xs with
  | nil => intro seen; simp [dedupeSeenLoop, firstOccurrenceByEmail_nil]
  | cons c rest ih =>
      intro seen
      by_cases h : contactKey c ∈ seen
      · have hl : dedupeSeenLoop seen (c :: rest) = dedupeSeenLoop seen rest := by
          simp only [dedupeSeenLoop, if_pos h]
        have hr : List.filter (fun d => !decide (contactKey d ∈ seen)) (c :: rest) =
            List.filter (fun d => !decide (contactKey d ∈ seen)) rest := by
          simp [List.filter_cons, h]
        rw [hl, hr]
        exact ih seen
      · have hl : dedupeSeenLoop seen (c :: rest) =
            c :: dedupeSeenLoop (contactKey c :: seen) rest := by
          simp only [dedupeSeenLoop, if_neg h]
        have hr : List.filter (fun d => !decide (contactKey d ∈ seen)) (c :: rest) =
            c :: List.filter (fun d => !decide (contactKey d ∈ seen)) rest := by
          simp [List.filter_cons, h]
        rw [hl, hr, firstOccurrenceByEmail_cons, List.filter_filter,
          ih (contactKey c :: seen)]
        congr 1
        congr 1
        apply List.filter_congr
        intro d _
        by_cases hd : contactKey d = contactKey c <;> by_cases hs : contactKey d ∈ seen <;>
          simp [hd, hs]

theorem dedupeSeenLoop_keys (xs : List Contact) : ∀ seen,
    ((dedupeSeenLoop seen xs).map contactKey).Nodup ∧
      ∀ k ∈ (dedupeSeenLoop seen xs).map contactKey, k ∉ seen := by
  induction xs with
  | nil => intro seen; exact ⟨List.nodup_nil, by simp [dedupeSeenLoop]⟩
  | cons c rest ih =>
      intro seen
      by_cases h : contactKey c ∈ seen
      · simpa only [dedupeSeenLoop, if_pos h] using ih seen
      · obtain ⟨h1, h2⟩ := ih (contactKey c :: seen)
        refine ⟨?_, ?_⟩
        · simp only [dedupeSeenLoop, if_neg h, List.map_cons, List.nodup_cons]
          exact ⟨fun hmem => (h2 _ hmem) (List.mem_cons_self _ _), h1⟩
        · simp only [dedupeSeenLoop, if_neg h, List.map_cons, List.mem_cons]
          rintro k (rfl | hk)
          · exact h
          · intro hks
            exact (h2 k hk) (List.mem_cons_of_mem _ hks)

/-! ### Lemmas about `save_contacts_csv` -/

theorem saveContactsLoop_count (xs : List Contact) : ∀ existing,
    (saveContactsLoop existing xs).2 = (saveContactsLoop existing xs).1.length := by
  induction xs with
  | nil => intro existing; rfl
  | cons c rest ih =>
      intro existing
      by_cases h : normEmail c.email ∈ existing
      · simp only [saveContactsLoop, if_pos h]; exact ih existing
      · simp only [saveContactsLoop, if_neg h, List.length_cons]
        rw [ih (normEmail c.email :: existing)]

theorem saveContactsLoop_skip_all (xs : List Contact) (existing : List String)
    (h : ∀ c ∈ xs, normEmail c.email ∈ existing) :
    saveContactsLoop existing xs = ([], 0) := by
  induction xs with
  | nil => rfl
  | cons c rest ih =>
      simp only [saveContactsLoop, if_pos (h c (List.mem_cons_self _ _))]
      exact ih fun d hd => h d (List.mem_cons_of_mem _ hd)

theorem saveContactsLoop_covers (xs : List Contact) : ∀ existing, ∀ c ∈ xs,
    normEmail c.email ∈ existing ∨
      normEmail c.email ∈ (saveContactsLoop existing xs).1.map (fun r => normEmail r.email) := by
  induction xs with
  | nil => intro existing c hc; cases hc
  | cons c rest ih =>
      intro existing d hd
      by_cases h : normEmail c.email ∈ existing
      · simp only [saveContactsLoop, if_pos h]
        rcases List.mem_cons.1 hd with rfl | hd'
        · exact Or.inl h
        · exact ih existing d hd'
      · simp only [saveContactsLoop, if_neg h, List.map_cons, List.mem_cons]
        rcases List.mem_cons.1 hd with rfl | hd'
        · exact Or.inr (Or.inl rfl)
        · rcases ih (normEmail c.email :: existing) d hd' with hmem | hmem
          · rcases List.mem_cons.1 hmem with heq | hmem'
            · exact Or.inr (Or.inl (by simp [contactToRow, heq]))
            · exact Or.inl hmem'
          · exact Or.inr (Or.inr hmem)

/-! ### Lemmas about `update_names_in_csv` -/

theorem buildEmailToName_values (contacts : List Contact) : ∀ acc,
    (∀ k v, acc.lookup k = some v → pyStrip v = v) →
    ∀ k v, (buildEmailToName acc contacts).lookup k = some v → pyStrip v = v := by
  induction contacts with
  | nil => intro acc hacc k v hkv; exact hacc k v hkv
  | cons c rest ih =>
      intro acc hacc k v hkv
      by_cases h1 : c.email ≠ "" ∧ optStrTruthy c.name
      · by_cases h2 : normEmail c.email ≠ "" ∧
            ((acc.lookup (normEmail c.email)).isNone = true)
        · rw [buildEmailToName, if_pos h1, if_pos h2] at hkv
          refine ih _ ?_ k v hkv
          intro k' v' hk'
          rw [List.lookup_append] at hk'
          rcases ho : acc.lookup k' with _ | w
          · rw [ho, Option.none_or, List.lookup_cons] at hk'
            by_cases he : (k' == normEmail c.email) = true
            · simp only [he] at hk'
              have hv : v' = pyStrip (c.name.getD "") := by
                simpa using hk'.symm
              rw [hv]
              exact pyStrip_idem _
            · simp only [Bool.not_eq_true] at he
              simp only [he] at hk'
              simp at hk'
          · rw [ho, Option.or_some] at hk'
            have hv : v' = w := by simpa using hk'.symm
            rw [hv]
            exact hacc k' w ho
        · rw [buildEmailToName, if_pos h1, if_neg h2] at hkv
          exact ih acc hacc k v hkv
      · rw [buildEmailToName, if_neg h1] at hkv
        exact ih acc hacc k v hkv

theorem emailToName_values (contacts : List Contact) :
    ∀ k v, (emailToName contacts).lookup k = some v → pyStrip v = v :=
  buildEmailToName_values contacts [] (by intro k v h; simp at h)

theorem updateRow_email (m : List (String × String)) (row : CsvRow) :
    (updateRow m row).1.email = row.email ∧
    (updateRow m row).1.affiliation = row.affiliation ∧
    (updateRow m row).1.source_url = row.source_url := by
  simp only [updateRow]
  by_cases h1 : normEmail row.email ≠ "" ∧ (List.lookup (normEmail row.email) m).isSome
  · rw [if_pos h1]
    by_cases hn : pyStrip row.name ≠ (List.lookup (normEmail row.email) m).getD ""
    · rw [if_pos hn]; exact ⟨rfl, rfl, rfl⟩
    · rw [if_neg hn]; exact ⟨rfl, rfl, rfl⟩
  · rw [if_neg h1]; exact ⟨rfl, rfl, rfl⟩

theorem updateRow_name_changed (m : List (String × String)) (row : CsvRow)
    (h : (updateRow m row).1.name ≠ row.name) :
    ∃ n, List.lookup (normEmail row.email) m = some n ∧ pyStrip row.name ≠ n ∧
      (updateRow m row).1.name = n := by
  simp only [updateRow] at h ⊢
  by_cases h1 : normEmail row.email ≠ "" ∧ (List.lookup (normEmail row.email) m).isSome
  · rw [if_pos h1] at h ⊢
    obtain ⟨n, hn'⟩ := Option.isSome_iff_exists.1 h1.2
    by_cases hn : pyStrip row.name ≠ (List.lookup (normEmail row.email) m).getD ""
    · rw [if_pos hn] at h ⊢
      refine ⟨n, hn', ?_, by simp [hn']⟩
      rw [hn'] at hn
      simpa using hn
    · rw [if_neg hn] at h; exact absurd rfl h
  · rw [if_neg h1] at h; exact absurd rfl h

theorem updateRow_returns_false (m : List (String × String)) (row : CsvRow)
    (h : normEmail row.email = "" ∨ List.lookup (normEmail row.email) m = none ∨
         ∀ n, List.lookup (normEmail row.email) m = some n → pyStrip row.name = n) :
    updateRow m row = (row, false) := by
  simp only [updateRow]
  by_cases h1 : normEmail row.email ≠ "" ∧ (List.lookup (normEmail row.email) m).isSome
  · rw [if_pos h1]
    obtain ⟨n, hn'⟩ := Option.isSome_iff_exists.1 h1.2
    have hfix : pyStrip row.name = n := by
      rcases h with h | h | h
      · exact absurd h h1.1
      · rw [h] at hn'; cases hn'
      · exact h n hn'
    rw [hn']
    simp only [Option.getD_some]
    rw [if_neg (by simp [hfix])]
  · rw [if_neg h1]

theorem updateRow_second (m : List (String × String))
    (hm : ∀ k v, m.lookup k = some v → pyStrip v = v) (row : CsvRow) :
    (updateRow m (updateRow m row).1).2 = false := by
  by_cases h1 : normEmail row.email ≠ "" ∧ (List.lookup (normEmail row.email) m).isSome
  · obtain ⟨n, hn'⟩ := Option.isSome_iff_exists.1 h1.2
    by_cases hd : pyStrip row.name ≠ (List.lookup (normEmail row.email) m).getD ""
    · have hfirst : (updateRow m row).1 = { row with name := n } := by
        simp only [updateRow]
        rw [if_pos h1, if_pos hd, hn']
        simp
      rw [hfirst]
      have hsecond : updateRow m ({ row with name := n } : CsvRow) =
          ({ row with name := n }, false) := by
        apply updateRow_returns_false
        refine Or.inr (Or.inr ?_)
        intro n' hn''
        have hrow : ({ row with name := n } : CsvRow).email = row.email := rfl
        rw [hrow] at hn''
        rw [hn'] at hn''
        have : n' = n := by simpa using hn''.symm
        rw [this]
        exact hm _ _ hn'
      rw [hsecond]
    · have hfirst : (updateRow m row).1 = row := by
        simp only [updateRow]
        rw [if_pos h1, if_neg hd]
      rw [hfirst]
      have hsecond : updateRow m row = (row, false) := by
        apply updateRow_returns_false
        refine Or.inr (Or.inr ?_)
        intro n' hn''
        rw [hn'] at hn''
        have : n' = n := by simpa using hn''.symm
        rw [this]
        rw [hn'] at hd
        simpa using hd
      rw [hsecond]
  · have hfirst : (updateRow m row).1 = row := by
      simp only [updateRow]
      rw [if_neg h1]
    rw [hfirst]
    have h2 : normEmail row.email = "" ∨ List.lookup (normEmail row.email) m = none := by
      by_cases he : normEmail row.email = ""
      · exact Or.inl he
      · refine Or.inr ?_
        rcases hl : List.lookup (normEmail row.email) m with _ | w
        · rfl
        · exact absurd ⟨he, by rw [hl]; rfl⟩ h1
    have := updateRow_returns_false m row (by tauto)
    rw [this]

theorem updateRowsLoop_emails (m : List (String × String)) (rows : List CsvRow) :
    (updateRowsLoop m rows).1.map CsvRow.email = rows.map CsvRow.email ∧
    (updateRowsLoop m rows).1.map CsvRow.affiliation = rows.map CsvRow.affiliation ∧
    (updateRowsLoop m rows).1.map CsvRow.source_url = rows.map CsvRow.source_url := by
  induction rows with
  | nil => exact ⟨rfl, rfl, rfl⟩
  | cons row rest ih =>
      obtain ⟨he, ha, hs⟩ := updateRow_email m row
      simp only [updateRowsLoop, List.map_cons]
      exact ⟨by rw [he, ih.1], by rw [ha, ih.2.1], by rw [hs, ih.2.2]⟩

theorem updateRowsLoop_second (m : List (String × String))
    (hm : ∀ k v, m.lookup k = some v → pyStrip v = v) (rows : List CsvRow) :
    (updateRowsLoop m (updateRowsLoop m rows).1).2 = 0 := by
  induction rows with
  | nil => rfl
  | cons row rest ih =>
      simp only [updateRowsLoop]
      rw [updateRow_second m hm row, ih]
      simp

theorem updateRowsLoop_frame (m : List (String × String)) (rows : List CsvRow) :
    List.Forall₂ (fun r' r : CsvRow =>
      r'.email = r.email ∧ r'.affiliation = r.affiliation ∧
      r'.source_url = r.source_url ∧
      (r'.name ≠ r.name →
        ∃ n, List.lookup (normEmail r.email) m = some n ∧ pyStrip r.name ≠ n ∧ r'.name = n))
      (updateRowsLoop m rows).1 rows := by
  induction rows with
  | nil => exact List.Forall₂.nil
  | cons row rest ih =>
      refine List.Forall₂.cons ?_ ih
      obtain ⟨he, ha, hs⟩ := updateRow_email m row
      exact ⟨he, ha, hs, updateRow_name_changed m row⟩

/-! ### Character and intercalate helpers for the validator -/

theorem toNat_ofNat_valid (n : Nat) (h : n < 55296) : (Char.ofNat n).toNat = n := by
  unfold Char.ofNat
  rw [dif_pos (Or.inl (by exact_mod_cast h))]
  rfl

theorem toLower_cases (c : Char) :
    c.toLower = c ∨ (97 ≤ c.toLower.toNat ∧ c.toLower.toNat ≤ 122) := by
  unfold Char.toLower
  by_cases h : c.toNat ≥ 65 ∧ c.toNat ≤ 90
  · rw [if_pos h]
    right
    rw [toNat_ofNat_valid _ (by omega)]
    omega
  · rw [if_neg h]
    left
    rfl

theorem mem_map_toLower {d : Char} (hd : ¬(97 ≤ d.toNat ∧ d.toNat ≤ 122))
    {l : List Char} (h : d ∈ l.map Char.toLower) : d ∈ l := by
  obtain ⟨c, hc, hcd⟩ := List.mem_map.1 h
  rcases toLower_cases c with h1 | h1
  · rw [← hcd, h1]
    exact hc
  · rw [hcd] at h1
    exact absurd h1 hd

theorem intercalate_single (s a : List Char) : List.intercalate s [a] = a := by
  simp [List.intercalate]

theorem intercalate_cons₂ (s a b : List Char) (tl : List (List Char)) :
    List.intercalate s (a :: b :: tl) = a ++ s ++ List.intercalate s (b :: tl) := by
  simp [List.intercalate, List.intersperse_cons_cons, List.append_assoc]

theorem mem_intercalate_single {x c : Char} :
    ∀ ls : List (List Char), c ∈ List.intercalate [x] ls → c = x ∨ ∃ l ∈ ls, c ∈ l := by
  intro ls
  induction ls with
  | nil => intro h; simp [List.intercalate] at h
  | cons a tl ih =>
      intro h
      rcases tl with _ | ⟨b, tl'⟩
      · rw [intercalate_single] at h
        exact Or.inr ⟨a, by simp, h⟩
      · rw [intercalate_cons₂] at h
        rcases List.mem_append.1 h with h1 | h1
        · rcases List.mem_append.1 h1 with h2 | h2
          · exact Or.inr ⟨a, by simp, h2⟩
          · exact Or.inl (by simpa using h2)
        · rcases ih h1 with h2 | ⟨l, hl, hcl⟩
          · exact Or.inl h2
          · exact Or.inr ⟨l, List.mem_cons_of_mem _ hl, hcl⟩

/-! ### The regex matcher agrees with the spec grammar -/

theorem emailRegexMatch_iff (s : String) :
    emailRegexMatch s = true ↔ SpecEmailShape s.data := by
  constructor
  · intro h
    unfold emailRegexMatch at h
    rcases hsplit : s.data.splitOn '@' with _ | ⟨lp, rest⟩
    · rw [hsplit] at h; simp at h
    rcases rest with _ | ⟨dom, rest2⟩
    · rw [hsplit] at h; simp at h
    rcases rest2 with _ | ⟨x, xs⟩
    case cons.cons.cons => rw [hsplit] at h; simp at h
    rw [hsplit] at h
    have h' : (!lp.isEmpty && lp.all isLocalChar && domainMatch dom) = true := h
    rw [Bool.and_eq_true, Bool.and_eq_true] at h'
    obtain ⟨⟨hne, hall⟩, hdm⟩ := h'
    unfold domainMatch at hdm
    rcases hrev : (dom.splitOn '.').reverse with _ | ⟨finl, initRev⟩
    · rw [hrev] at hdm; simp at hdm
    rw [hrev] at hdm
    have hdm' : (!initRev.isEmpty && initRev.all (fun l => !l.isEmpty && l.all isDomainChar)
        && finl.all Char.isAlpha && decide (2 ≤ finl.length)) = true := hdm
    rw [Bool.and_eq_true, Bool.and_eq_true, Bool.and_eq_true] at hdm'
    obtain ⟨⟨⟨hinitne, hinitall⟩, hfinl⟩, hlen⟩ := hdm'
    have hlabels : dom.splitOn '.' = initRev.reverse ++ [finl] := by
      have := congrArg List.reverse hrev
      simpa using this
    have hdom : dom = List.intercalate ['.'] (initRev.reverse ++ [finl]) := by
      rw [← hlabels]
      exact (List.intercalate_splitOn dom '.').symm
    have hsdata : s.data = lp ++ '@' :: dom := by
      calc s.data = List.intercalate ['@'] [lp, dom] := by
            rw [← hsplit]
            exact (List.intercalate_splitOn s.data '@').symm
        _ = lp ++ '@' :: dom := by
            rw [intercalate_cons₂, intercalate_single]
            simp
    refine ⟨lp, initRev.reverse, finl, ?_, ?_, ?_, ?_, ?_, ?_, ?_⟩
    · rw [hsdata, hdom]
    · simpa using hne
    · intro c hc
      exact List.all_eq_true.1 hall c hc
    · simpa using hinitne
    · intro p hp
      have hp' : p ∈ initRev := by simpa using hp
      have hboth := List.all_eq_true.1 hinitall p hp'
      rw [Bool.and_eq_true] at hboth
      exact ⟨by simpa using hboth.1, fun c hc => List.all_eq_true.1 hboth.2 c hc⟩
    · intro c hc
      exact List.all_eq_true.1 hfinl c hc
    · simpa using hlen
  · rintro ⟨lp, parts, finl, ht, hlp, hlpc, hparts, hpartsc, hfinl, hlen⟩
    have hat_lp : ∀ y ∈ lp, ¬((y == '@') = true) := by
      intro y hy hbeq
      have hy' : y = '@' := by simpa using hbeq
      exact absurd (hy' ▸ hlpc y hy) (by decide)
    have hdotnot : ∀ c ∈ List.intercalate ['.'] (parts ++ [finl]),
        c = '.' ∨ isDomainChar c = true ∨ c.isAlpha = true := by
      intro c hc
      rcases mem_intercalate_single _ hc with h1 | ⟨l, hl, hcl⟩
      · exact Or.inl h1
      · rcases List.mem_append.1 hl with h2 | h2
        · exact Or.inr (Or.inl ((hpartsc l h2).2 c hcl))
        · have hfl : l = finl := by simpa using h2
          exact Or.inr (Or.inr (hfinl c (hfl ▸ hcl)))
    have hat_dom : ∀ y ∈ List.intercalate ['.'] (parts ++ [finl]), ¬((y == '@') = true) := by
      intro y hy hbeq
      have hy' : y = '@' := by simpa using hbeq
      rcases hdotnot y hy with h1 | h1 | h1 <;> rw [hy'] at h1
      · exact absurd h1 (by decide)
      · exact absurd h1 (by decide)
      · exact absurd h1 (by decide)
    have hsplit : s.data.splitOn '@' = [lp, List.intercalate ['.'] (parts ++ [finl])] := by
      rw [ht]
      simp only [List.splitOn]
      rw [List.splitOnP_first (fun y => y == '@') lp hat_lp '@' (by simp)]
      rw [List.splitOnP_eq_single (fun y => y == '@') _ hat_dom]
    unfold emailRegexMatch
    rw [hsplit]
    have hsplitdots : (List.intercalate ['.'] (parts ++ [finl])).splitOn '.' =
        parts ++ [finl] := by
      apply List.splitOn_intercalate
      · intro l hl hdot
        rcases List.mem_append.1 hl with h2 | h2
        · exact absurd ((hpartsc l h2).2 '.' hdot) (by decide)
        · have hfl : l = finl := by simpa using h2
          exact absurd (hfinl '.' (hfl ▸ hdot)) (by decide)
      · simp
    show (!lp.isEmpty && lp.all isLocalChar
        && domainMatch (List.intercalate ['.'] (parts ++ [finl]))) = true
    rw [Bool.and_eq_true, Bool.and_eq_true]
    refine ⟨⟨by simpa using hlp, List.all_eq_true.2 hlpc⟩, ?_⟩
    unfold domainMatch
    rw [hsplitdots, List.reverse_append]
    have hshow : [finl].reverse ++ parts.reverse = finl :: parts.reverse := by simp
    rw [hshow]
    show (!(parts.reverse).isEmpty
        && (parts.reverse).all (fun l => !l.isEmpty && l.all isDomainChar)
        && finl.all Char.isAlpha && decide (2 ≤ finl.length)) = true
    rw [Bool.and_eq_true, Bool.and_eq_true, Bool.and_eq_true]
    refine ⟨⟨⟨by simpa using hparts, ?_⟩, List.all_eq_true.2 hfinl⟩, by simpa using hlen⟩
    apply List.all_eq_true.2
    intro p hp
    have hp' : p ∈ parts := by simpa using hp
    rw [Bool.and_eq_true]
    exact ⟨by simpa using (hpartsc p hp').1, List.all_eq_true.2 (hpartsc p hp').2⟩

/-! ### Marker containment and rejection lemmas -/

theorem containsSub_iff (n : List Char) : ∀ h : List Char,
    containsSub n h = true ↔ n <:+: h := by
  intro h
  induction h with
  | nil =>
      simp only [containsSub, List.isEmpty_iff, List.infix_nil]
  | cons c rest ih =>
      simp only [containsSub, Bool.or_eq_true, ih, List.isPrefixOf_iff_prefix,
        List.infix_cons_iff]

theorem hasObfuscationMarker_iff (candidate : String) :
    hasObfuscationMarker candidate = true ↔
      ∃ m ∈ obfuscationMarkers, m.data <:+: (pyLower candidate).data := by
  unfold hasObfuscationMarker
  rw [List.any_eq_true]
  constructor
  · rintro ⟨m, hm, hc⟩
    exact ⟨m, hm, (containsSub_iff _ _).1 hc⟩
  · rintro ⟨m, hm, hc⟩
    exact ⟨m, hm, (containsSub_iff _ _).2 hc⟩

theorem specShape_chars {t : List Char} (h : SpecEmailShape t) :
    ∀ c ∈ t, isLocalChar c = true ∨ c = '@' ∨ c = '.' ∨ isDomainChar c = true ∨
      c.isAlpha = true := by
  obtain ⟨lp, parts, finl, ht, _, hlpc, _, hpartsc, hfinl, _⟩ := h
  intro c hc
  rw [ht] at hc
  rcases List.mem_append.1 hc with h1 | h1
  · exact Or.inl (hlpc c h1)
  · rcases List.mem_cons.1 h1 with h2 | h2
    · exact Or.inr (Or.inl h2)
    · rcases mem_intercalate_single _ h2 with h3 | ⟨l, hl, hcl⟩
      · exact Or.inr (Or.inr (Or.inl h3))
      · rcases List.mem_append.1 hl with h4 | h4
        · exact Or.inr (Or.inr (Or.inr (Or.inl ((hpartsc l h4).2 c hcl))))
        · have hfl : l = finl := by simpa using h4
          exact Or.inr (Or.inr (Or.inr (Or.inr (hfinl c (hfl ▸ hcl)))))

theorem marker_bracket (m : String) (hm : m ∈ obfuscationMarkers) :
    '[' ∈ m.data ∨ '(' ∈ m.data := by
  simp only [obfuscationMarkers, List.mem_cons, List.not_mem_nil, or_false] at hm
  rcases hm with h | h | h | h
  · rw [h]; left; decide
  · rw [h]; right; decide
  · rw [h]; left; decide
  · rw [h]; right; decide

theorem is_valid_email_marker_reject (s : String)
    (h : ∃ m ∈ obfuscationMarkers, m.data <:+: (pyLower s).data) :
    is_valid_email s = false := by
  obtain ⟨m, hm, hinf⟩ := h
  by_contra hval
  have hval' : is_valid_email s = true := by
    simp only [Bool.not_eq_false] at hval
    exact hval
  unfold is_valid_email at hval'
  by_cases h0 : s = ""
  · rw [if_pos h0] at hval'; cases hval'
  rw [if_neg h0] at hval'
  by_cases h1 : hasObfuscationMarker (pyStrip s) = true
  · rw [if_pos h1] at hval'; cases hval'
  rw [if_neg h1] at hval'
  have hshape : SpecEmailShape (pyStrip s).data := (emailRegexMatch_iff _).1 hval'
  have hchars := specShape_chars hshape
  have hbr : '[' ∈ s.data ∨ '(' ∈ s.data := by
    rcases marker_bracket m hm with hb | hb
    · left
      exact mem_map_toLower (by decide) (hinf.subset hb)
    · right
      exact mem_map_toLower (by decide) (hinf.subset hb)
  have hstrip : '[' ∈ (pyStrip s).data ∨ '(' ∈ (pyStrip s).data := by
    rcases hbr with hb | hb
    · exact Or.inl (mem_stripList_of_not_space hb (by decide))
    · exact Or.inr (mem_stripList_of_not_space hb (by decide))
  rcases hstrip with hb | hb
  · rcases hchars '[' hb with h2 | h2 | h2 | h2 | h2 <;> revert h2 <;> decide
  · rcases hchars '(' hb with h2 | h2 | h2 | h2 | h2 <;> revert h2 <;> decide

theorem columbiaMerge_seen_mem (page : List Contact) : ∀ seen acc x,
    x ∈ (columbiaMerge seen acc page).1 ↔ x ∈ seen ∨ x ∈ page.map contactKey := by
  induction page with
  | nil => intro seen acc x; simp [columbiaMerge]
  | cons c rest ih =>
      intro seen acc x
      by_cases h : contactKey c ∈ seen
      · simp only [columbiaMerge, if_pos h]
        rw [ih]
        simp only [List.map_cons, List.mem_cons]
        constructor
        · rintro (h1 | h1)
          · exact Or.inl h1
          · exact Or.inr (Or.inr h1)
        · rintro (h1 | h1 | h1)
          · exact Or.inl h1
          · exact Or.inl (h1 ▸ h)
          · exact Or.inr h1
      · simp only [columbiaMerge, if_neg h]
        rw [ih]
        simp only [List.map_cons, List.mem_cons]
        tauto

theorem columbiaMerge_zero_iff (page : List Contact) : ∀ seen acc,
    (columbiaMerge seen acc page).2.2 = 0 ↔ ∀ c ∈ page, contactKey c ∈ seen := by
  induction page with
  | nil => intro seen acc; simp [columbiaMerge]
  | cons c rest ih =>
      intro seen acc
      by_cases h : contactKey c ∈ seen
      · simp only [columbiaMerge, if_pos h]
        rw [ih]
        constructor
        · intro h1 d hd
          rcases List.mem_cons.1 hd with rfl | hd'
          · exact h
          · exact h1 d hd'
        · intro h1 d hd
          exact h1 d (List.mem_cons_of_mem _ hd)
      · simp only [columbiaMerge, if_neg h]
        constructor
        · intro h1
          simp at h1
        · intro h1
          exact absurd (h1 c (List.mem_cons_self _ _)) h

theorem columbiaMerge_zero_acc (page : List Contact) : ∀ seen acc,
    (columbiaMerge seen acc page).2.2 = 0 → (columbiaMerge seen acc page).2.1 = acc := by
  induction page with
  | nil => intro seen acc _; rfl
  | cons c rest ih =>
      intro seen acc h0
      by_cases h : contactKey c ∈ seen
      · simp only [columbiaMerge, if_pos h] at h0 ⊢
        exact ih seen acc h0
      · simp only [columbiaMerge, if_neg h] at h0
        simp at h0

theorem columbiaWalk_succ (fetchPage : Nat → Option (List Contact))
    (budget current : Nat) (seen : List String) (acc : List Contact) (trace : List Nat) :
    columbiaWalk fetchPage (budget + 1) current seen acc trace =
      match fetchPage current with
      | none => (acc, trace ++ [current])
      | some pageContacts =>
          let r := columbiaMerge seen acc pageContacts
          if r.2.2 = 0 then (r.2.1, trace ++ [current])
          else columbiaWalk fetchPage budget (current + 1) r.1 r.2.1 (trace ++ [current]) :=
  rfl

/-! ## Claim theorems -/

/-- Claim C1, counterexample: on the scenario document the generic
parser's heuristic attributes the anchor's own label `"Contact"`, not the
sibling heading `"Jane Roe"` — the claim as stated is false on the code. -/
theorem generic_contact_label_counterexample :
    parse_contacts_generic contactLabelDoc "http://law.example.edu/faculty"
        (some "Example Law") (some "http://law.example.edu/faculty") =
      [⟨some "Contact", "jane@x.edu", some "Example Law",
        some "http://law.example.edu/faculty"⟩] ∧
    ¬((parse_contacts_generic contactLabelDoc "http://law.example.edu/faculty"
        (some "Example Law") (some "http://law.example.edu/faculty")).map Contact.name =
      [some "Jane Roe"]) := by
  decide

/-- Claim C1, amended: the generic parser attributes `"Contact"` (its
first heuristic step accepts any short `'@'`-free anchor text and has no
button-label exclusion); the button/action-label exclusion exists only in
the Duke parser's heuristic, which on the same document attributes
`"Jane Roe"`. -/
theorem generic_contact_label_amended :
    parse_contacts_generic contactLabelDoc "http://law.example.edu/faculty"
        (some "Example Law") (some "http://law.example.edu/faculty") =
      [⟨some "Contact", "jane@x.edu", some "Example Law",
        some "http://law.example.edu/faculty"⟩] ∧
    nearest_name_duke contactLabelDoc [1] = some "Jane Roe" := by
  decide

/-- Claim C2, counterexample: with a contact whose email is empty, the
second identical append writes one more row (not zero); and with a store
already holding the email, the first call does not write every row. -/
theorem append_store_counterexample :
    (save_contacts_csv
        (some (save_contacts_csv none [⟨none, "", none, none⟩] true).1)
        [⟨none, "", none, none⟩] true).2 = 1 ∧
    (save_contacts_csv
        (some (save_contacts_csv none [⟨none, "", none, none⟩] true).1)
        [⟨none, "", none, none⟩] true).1.length = 2 ∧
    (save_contacts_csv (some [⟨"N", "a@x.edu", "", ""⟩])
        [⟨some "N", "a@x.edu", none, none⟩] true).2 = 0 := by
  decide

/-- Claim C2, amended: every call returns exactly the number of rows it
appended; and starting from a non-existent store with contacts whose
normalised emails are all nonempty, the first call writes one row per
first-seen normalised email (every contact's email is represented) and
the second identical call writes zero rows, leaving the store unchanged. -/
theorem append_store_amended (store : List CsvRow) (contacts : List Contact)
    (h : ∀ c ∈ contacts, normEmail c.email ≠ "") :
    (save_contacts_csv (some store) contacts true).1.length =
      store.length + (save_contacts_csv (some store) contacts true).2 ∧
    (save_contacts_csv none contacts true).2 =
      (save_contacts_csv none contacts true).1.length ∧
    (∀ c ∈ contacts, normEmail c.email ∈
      (save_contacts_csv none contacts true).1.map fun r => normEmail r.email) ∧
    (save_contacts_csv (some (save_contacts_csv none contacts true).1)
        contacts true).1 = (save_contacts_csv none contacts true).1 ∧
    (save_contacts_csv (some (save_contacts_csv none contacts true).1)
        contacts true).2 = 0 := by
  have hfresh : save_contacts_csv none contacts true =
      ((saveContactsLoop [] contacts).1, (saveContactsLoop [] contacts).2) := by
    simp [save_contacts_csv]
  have hcover : ∀ c ∈ contacts, normEmail c.email ∈
      (save_contacts_csv none contacts true).1.map fun r => normEmail r.email := by
    intro c hc
    rw [hfresh]
    rcases saveContactsLoop_covers contacts [] c hc with hmem | hmem
    · simp at hmem
    · exact hmem
  have hskip : saveContactsLoop
      (((save_contacts_csv none contacts true).1.map fun r => normEmail r.email).filter
        fun e => e ≠ "") contacts = ([], 0) := by
    apply saveContactsLoop_skip_all
    intro c hc
    rw [List.mem_filter]
    exact ⟨hcover c hc, by simpa using h c hc⟩
  have hsome : ∀ st : List CsvRow, save_contacts_csv (some st) contacts true =
      (st ++ (saveContactsLoop ((st.map fun r => normEmail r.email).filter
          fun e => e ≠ "") contacts).1,
        (saveContactsLoop ((st.map fun r => normEmail r.email).filter
          fun e => e ≠ "") contacts).2) := fun st => rfl
  refine ⟨?_, ?_, hcover, ?_, ?_⟩
  · rw [hsome store]
    simp only [List.length_append]
    rw [saveContactsLoop_count contacts]
  · rw [hfresh]
    exact saveContactsLoop_count contacts []
  · rw [hsome ((save_contacts_csv none contacts true).1)]
    rw [hskip]
    simp
  · rw [hsome ((save_contacts_csv none contacts true).1)]
    rw [hskip]

/-- Claim C2, witness: the amended theorem at a concrete contact list —
the second identical append writes zero rows. -/
theorem append_store_amended_witness :
    (save_contacts_csv
        (some (save_contacts_csv none [⟨some "N", "n@x.edu", none, none⟩] true).1)
        [⟨some "N", "n@x.edu", none, none⟩] true).2 = 0 :=
  (append_store_amended [] [⟨some "N", "n@x.edu", none, none⟩] (by decide)).2.2.2.2

/-- Claim C3: `update_names_in_csv` never changes the `email` field (nor
`affiliation`/`source_url`); a row's `name` changes only when its
normalised email matches an inbound contact's key and the current
(stripped) name differs from the mapped name; and a second run with the
same contacts reports zero updates. -/
theorem reconcile_names_frame_idempotent (rows : List CsvRow) (contacts : List Contact) :
    (update_names_in_csv rows contacts).1.map CsvRow.email = rows.map CsvRow.email ∧
    List.Forall₂ (fun r' r : CsvRow =>
        r'.affiliation = r.affiliation ∧ r'.source_url = r.source_url ∧
        (r'.name ≠ r.name → ∃ n,
          (emailToName contacts).lookup (normEmail r.email) = some n ∧
          pyStrip r.name ≠ n ∧ r'.name = n))
      (update_names_in_csv rows contacts).1 rows ∧
    (update_names_in_csv (update_names_in_csv rows contacts).1 contacts).2 = 0 := by
  refine ⟨(updateRowsLoop_emails _ rows).1, ?_,
    updateRowsLoop_second _ (emailToName_values contacts) rows⟩
  exact (updateRowsLoop_frame (emailToName contacts) rows).imp
    (fun _ _ h => ⟨h.2.1, h.2.2.1, h.2.2.2⟩)

/-- Claim C3, witness: the theorem at the spec's seed store — emails
survive unchanged and the second reconciliation reports zero updates. -/
theorem reconcile_names_frame_idempotent_witness :
    (update_names_in_csv [⟨"", "a@x.edu", "X", "http://x.edu"⟩]
        [⟨some "Jane Roe", "A@X.EDU", none, none⟩]).1.map CsvRow.email = ["a@x.edu"] ∧
    (update_names_in_csv
        (update_names_in_csv [⟨"", "a@x.edu", "X", "http://x.edu"⟩]
          [⟨some "Jane Roe", "A@X.EDU", none, none⟩]).1
        [⟨some "Jane Roe", "A@X.EDU", none, none⟩]).2 = 0 :=
  ⟨((reconcile_names_frame_idempotent [⟨"", "a@x.edu", "X", "http://x.edu"⟩]
      [⟨some "Jane Roe", "A@X.EDU", none, none⟩]).1).trans (by decide),
    (reconcile_names_frame_idempotent [⟨"", "a@x.edu", "X", "http://x.edu"⟩]
      [⟨some "Jane Roe", "A@X.EDU", none, none⟩]).2.2⟩

/-- Claim C4: reconciling the seed row `("", "a@x.edu", "X",
"http://x.edu")` with the contact `("Jane Roe", "A@X.EDU", ...)` updates
the row's name by case-insensitive email match and touches nothing else,
reporting one update. -/
theorem reconcile_names_case_insensitive_scenario :
    update_names_in_csv [⟨"", "a@x.edu", "X", "http://x.edu"⟩]
        [⟨some "Jane Roe", "A@X.EDU", some "Y", some "http://y"⟩] =
      ([⟨"Jane Roe", "a@x.edu", "X", "http://x.edu"⟩], 1) := by
  decide

/-- Claim C5: `dedupe_contacts` is idempotent, and it equals the
keep-first-occurrence-per-normalised-email reference function (hence is a
stable, order-preserving, first-occurrence-wins filter). -/
theorem dedupe_idempotent_first_occurrence (xs : List Contact) :
    dedupe_contacts (dedupe_contacts xs) = dedupe_contacts xs ∧
    dedupe_contacts xs = firstOccurrenceByEmail xs := by
  refine ⟨dedupeSeenLoop_idem xs [], ?_⟩
  rw [dedupe_contacts, dedupeSeenLoop_eq_firstOcc]
  congr 1
  apply List.filter_eq_self.mpr
  intro a _
  simp

/-- Claim C5, witness: the theorem at a concrete list with a duplicate
normalised email. -/
theorem dedupe_idempotent_first_occurrence_witness :
    dedupe_contacts (dedupe_contacts
        [⟨some "A", "e@x.edu", none, none⟩, ⟨some "B", " E@X.EDU ", none, none⟩]) =
      dedupe_contacts
        [⟨some "A", "e@x.edu", none, none⟩, ⟨some "B", " E@X.EDU ", none, none⟩] ∧
    dedupe_contacts
        [⟨some "A", "e@x.edu", none, none⟩, ⟨some "B", " E@X.EDU ", none, none⟩] =
      firstOccurrenceByEmail
        [⟨some "A", "e@x.edu", none, none⟩, ⟨some "B", " E@X.EDU ", none, none⟩] :=
  dedupe_idempotent_first_occurrence
    [⟨some "A", "e@x.edu", none, none⟩, ⟨some "B", " E@X.EDU ", none, none⟩]

/-- Claim C6: `is_valid_email` accepts exactly the trimmed, nonempty,
marker-free strings matching the conservative grammar; any string
containing an obfuscation marker (case-insensitively, trimmed or not) is
rejected, as are empty and whitespace-only strings. -/
theorem is_valid_email_spec :
    (∀ s : String, is_valid_email s = true ↔
      (pyStrip s ≠ "" ∧
        ¬(∃ m ∈ obfuscationMarkers, m.data <:+: (pyLower (pyStrip s)).data) ∧
        SpecEmailShape (pyStrip s).data)) ∧
    (∀ s : String, (∃ m ∈ obfuscationMarkers, m.data <:+: (pyLower s).data) →
      is_valid_email s = false) ∧
    is_valid_email "jane [at] law.edu" = false ∧
    (∀ s : String, (∀ c ∈ s.data, isPySpace c = true) → is_valid_email s = false) := by
  refine ⟨?_, is_valid_email_marker_reject, by decide, ?_⟩
  · intro s
    unfold is_valid_email
    by_cases h0 : s = ""
    · rw [if_pos h0]
      constructor
      · intro h; cases h
      · rintro ⟨hne, -, -⟩
        subst h0
        exact absurd rfl hne
    · rw [if_neg h0]
      by_cases h1 : hasObfuscationMarker (pyStrip s) = true
      · rw [if_pos h1]
        constructor
        · intro h; cases h
        · rintro ⟨-, hno, -⟩
          exact absurd ((hasObfuscationMarker_iff _).1 h1) hno
      · rw [if_neg h1]
        rw [emailRegexMatch_iff]
        constructor
        · intro hshape
          refine ⟨?_, ?_, hshape⟩
          · obtain ⟨lp, parts, finl, ht, hlp, -⟩ := hshape
            intro he
            rw [he] at ht
            simp at ht
          · intro hmark
            exact h1 ((hasObfuscationMarker_iff _).2 hmark)
        · rintro ⟨-, -, hshape⟩
          exact hshape
  · intro s hws
    by_cases h0 : s = ""
    · simp [is_valid_email, h0]
    · have hstrip : pyStrip s = "" := by
        have hdw : s.data.dropWhile isPySpace = [] :=
          List.dropWhile_eq_nil_iff.2 fun x hx => by simp [hws x hx]
        show (⟨stripList s.data⟩ : String) = ""
        rw [stripList, hdw]
        rfl
      unfold is_valid_email
      rw [if_neg h0, hstrip]
      decide

/-- Claim C6, witness: the characterisation applied at a well-formed
address (accepted, with an explicit grammar decomposition) and the
marker-rejection part applied at a marker-bearing string. -/
theorem is_valid_email_spec_witness :
    is_valid_email "a@b.com" = true ∧ is_valid_email "x (at) y@z.com" = false :=
  ⟨(is_valid_email_spec.1 "a@b.com").2
      ⟨by decide, by decide,
        ⟨['a'], [['b']], ['c', 'o', 'm'], by decide, by decide, by decide, by decide,
          by decide, by decide, by decide⟩⟩,
    is_valid_email_spec.2.1 "x (at) y@z.com" ⟨"(at)", by decide, by decide⟩⟩

/-- Claim C7: `_robots_allows` fails safe — when retrieving or parsing
the host's robots policy fails it returns `true` for (only) the URL being
asked about, and on success it returns the parsed policy's `can_fetch`
answer for the declared user agent and that URL. -/
theorem robots_allows_fail_safe (userAgent url : String) :
    robots_allows RobotsFetch.failure userAgent url = true ∧
    ∀ canFetch : String → String → Bool,
      robots_allows (RobotsFetch.success canFetch) userAgent url =
        canFetch userAgent url :=
  ⟨rfl, fun _ => rfl⟩

/-- Claim C7, witness: the theorem at a concrete user agent, URL and a
policy that denies everything. -/
theorem robots_allows_fail_safe_witness :
    robots_allows RobotsFetch.failure "LawQuoteCollectorBot/1.0"
        "http://law.example.edu/faculty" = true ∧
    robots_allows (RobotsFetch.success fun _ _ => false) "LawQuoteCollectorBot/1.0"
        "http://law.example.edu/faculty" = false :=
  ⟨(robots_allows_fail_safe "LawQuoteCollectorBot/1.0" "http://law.example.edu/faculty").1,
    (robots_allows_fail_safe "LawQuoteCollectorBot/1.0" "http://law.example.edu/faculty").2
      fun _ _ => false⟩

/-- Claim C8: for the Columbia stall-stop walker started at page
parameter 0, if pages 1 and 2 each contribute a new (not-yet-seen)
contact and every contact of page 3 is already seen (page 3 yields zero
new contacts), the walk fetches exactly pages 1, 2, 3 — it stops after
page 3 and never fetches page 4. -/
theorem columbia_stall_stops_after_page3 (init p1 p2 p3 : List Contact)
    (fetchPage : Nat → Option (List Contact))
    (h1 : fetchPage 1 = some p1) (h2 : fetchPage 2 = some p2)
    (h3 : fetchPage 3 = some p3)
    (hn1 : ∃ c ∈ p1, contactKey c ∉ init.map contactKey)
    (hn2 : ∃ c ∈ p2, contactKey c ∉ init.map contactKey ++ p1.map contactKey)
    (hstall : ∀ c ∈ p3,
      contactKey c ∈ init.map contactKey ++ p1.map contactKey ++ p2.map contactKey) :
    (parse_contacts_columbia init 0 fetchPage).2 = [1, 2, 3] := by
  unfold parse_contacts_columbia MAX_PAGES
  rw [show (40 : Nat) = 39 + 1 from rfl, columbiaWalk_succ, h1]
  simp only
  have hm1 : ¬((columbiaMerge (init.map contactKey) init p1).2.2 = 0) := by
    rw [columbiaMerge_zero_iff]
    intro hall
    obtain ⟨c, hc, hck⟩ := hn1
    exact hck (hall c hc)
  rw [if_neg hm1]
  rw [show (39 : Nat) = 38 + 1 from rfl, columbiaWalk_succ, h2]
  simp only
  have hseen1 : ∀ x, x ∈ (columbiaMerge (init.map contactKey) init p1).1 ↔
      x ∈ init.map contactKey ∨ x ∈ p1.map contactKey := fun x =>
    columbiaMerge_seen_mem p1 (init.map contactKey) init x
  have hm2 : ¬((columbiaMerge (columbiaMerge (init.map contactKey) init p1).1
      (columbiaMerge (init.map contactKey) init p1).2.1 p2).2.2 = 0) := by
    rw [columbiaMerge_zero_iff]
    intro hall
    obtain ⟨c, hc, hck⟩ := hn2
    have := (hseen1 (contactKey c)).1 (hall c hc)
    rw [List.mem_append] at hck
    exact hck this
  rw [if_neg hm2]
  rw [show (38 : Nat) = 37 + 1 from rfl, columbiaWalk_succ, h3]
  simp only
  have hseen2 : ∀ x, x ∈ (columbiaMerge (columbiaMerge (init.map contactKey) init p1).1
        (columbiaMerge (init.map contactKey) init p1).2.1 p2).1 ↔
      x ∈ init.map contactKey ∨ x ∈ p1.map contactKey ∨ x ∈ p2.map contactKey := by
    intro x
    rw [columbiaMerge_seen_mem, hseen1]
    tauto
  have hm3 : (columbiaMerge (columbiaMerge (columbiaMerge (init.map contactKey) init p1).1
      (columbiaMerge (init.map contactKey) init p1).2.1 p2).1
      (columbiaMerge (columbiaMerge (init.map contactKey) init p1).1
        (columbiaMerge (init.map contactKey) init p1).2.1 p2).2.1 p3).2.2 = 0 := by
    rw [columbiaMerge_zero_iff]
    intro c hc
    rw [hseen2]
    have := hstall c hc
    rw [List.mem_append, List.mem_append] at this
    tauto
  rw [if_pos hm3]
  simp

/-- Claim C8, witness: the theorem at the concrete fake page sequence —
the walk fetches pages 1, 2, 3 and not page 4 (which `colStallPages`
would answer). -/
theorem columbia_stall_stops_after_page3_witness :
    (parse_contacts_columbia [] 0 colStallPages).2 = [1, 2, 3] :=
  columbia_stall_stops_after_page3 []
    [⟨some "A", "a@x.edu", none, none⟩]
    [⟨some "B", "b@x.edu", none, none⟩]
    [⟨some "A", "a@x.edu", none, none⟩, ⟨some "B", "b@x.edu", none, none⟩]
    colStallPages (by decide) (by decide) (by decide) (by decide) (by decide) (by decide)

/-- Claim C9: the final pass of `scrape_directory` leaves the parser's
contacts unique by normalised email keeping first occurrences (it equals
the first-occurrence reference function and its key list is duplicate
free); on the two-anchor scenario document the generic parser's output
collapses to exactly one contact carrying the first-seen name. -/
theorem scrape_directory_unique_by_email :
    (∀ parserContacts : List Contact,
      ((scrape_directory_result parserContacts).map contactKey).Nodup ∧
      scrape_directory_result parserContacts = firstOccurrenceByEmail parserContacts) ∧
    scrape_directory_result (parse_contacts_generic dupAnchorsDoc "u" (some "A") (some "u")) =
      [⟨some "Ann One", "dup@x.edu", some "A", some "u"⟩] := by
  constructor
  · intro cs
    refine ⟨(dedupeSeenLoop_keys cs []).1, ?_⟩
    rw [scrape_directory_result, dedupeSeenLoop_eq_firstOcc]
    congr 1
    apply List.filter_eq_self.mpr
    intro a _
    simp
  · decide

/-- Claim C9, witness: the universal part applied at a concrete
duplicate-key list. -/
theorem scrape_directory_unique_by_email_witness :
    ((scrape_directory_result
        [⟨some "A", "e@x.edu", none, none⟩, ⟨some "B", "E@X.EDU", none, none⟩]).map
      contactKey).Nodup ∧
    scrape_directory_result
        [⟨some "A", "e@x.edu", none, none⟩, ⟨some "B", "E@X.EDU", none, none⟩] =
      firstOccurrenceByEmail
        [⟨some "A", "e@x.edu", none, none⟩, ⟨some "B", "E@X.EDU", none, none⟩] :=
  scrape_directory_unique_by_email.1
    [⟨some "A", "e@x.edu", none, none⟩, ⟨some "B", "E@X.EDU", none, none⟩]

/-- Claim C10: on a Duke listing whose name anchor has no nearby mailto
link, `duke_law.parse_contacts` emits a contact whose `email` field is
the empty string through its normal path — and the empty string is not a
validator-approved email. -/
theorem duke_emits_empty_email_contact :
    parse_contacts_duke dukeNameOnlyDoc "http://law.duke.edu/fac/" (some "Duke") none =
      [⟨some "Jane Roe", "", some "Duke", some "http://law.duke.edu/fac/"⟩] ∧
    is_valid_email "" = false := by
  decide
